import Mathlib

/-!
Verification of the scons-unity-build tool (`unity_build.py`).

The development shallowly embeds the program's core:

* `SrcItem` / `SrcList` — the heterogeneous, possibly nested source list a
  generator receives: SCons `File` nodes (identified by their absolute path),
  plain string paths, arbitrary other build nodes (passthroughs), and nested
  lists.  `SrcList` is the list spine, so that all recursion is structural.
* `_flatten_source` — the recursive flattening of a nested source list into
  compilable paths and passthrough nodes (lines 105-120 of the source).
* `pyCeilDiv` / `sources_per_file_calc` / `unity_slices` — the partitioner
  arithmetic of lines 77-98: `math.ceil` over exact division (raising
  `ZeroDivisionError` for a zero divisor, as Python does), the derived
  sources-per-file value, and the slicing loop.  Python's `list[b:e]`
  slicing is modelled by `pySlice`, including clamping and negative indices.
* `generator` — the wrapper produced by `_make_generator` (lines 70-103),
  parametric in the base builder.  It records the `UnitySource` calls, the
  single base-builder invocation, and the returned value's shape (`PyRet`).
* `_generate_unity_file` — the aggregate renderer of lines 126-133; the
  `open(.., 'w')` write is modelled as a map update on a file system
  (`fs_write` / `render_unity`).
-/

mutual
inductive SrcItem where
  | file (abspath : String)
  | str (path : String)
  | node (tag : Nat)
  | list (children : SrcList)

inductive SrcList where
  | nil
  | cons (head : SrcItem) (tail : SrcList)
end

/-- Python list append (`xs + ys`) on the nested-source spine. -/
def SrcList.append : SrcList → SrcList → SrcList
  | SrcList.nil, ys => ys
  | SrcList.cons x xs, ys => SrcList.cons x (SrcList.append xs ys)

/-- Build a `SrcList` from an ordinary Lean list of items. -/
def SrcList.ofList : List SrcItem → SrcList
  | [] => SrcList.nil
  | x :: xs => SrcList.cons x (SrcList.ofList xs)

mutual
/-- One iteration of the `for ele in source` loop body of `_flatten_source`
(lines 108-118): a nested list is flattened recursively, a `File` node
contributes its `abspath`, a string contributes itself, anything else is a
passthrough node. -/
def _flatten_source_item : SrcItem → List String × List SrcItem
  | SrcItem.file p => ([p], [])
  | SrcItem.str p => ([p], [])
  | SrcItem.node t => ([], [SrcItem.node t])
  | SrcItem.list children => _flatten_source children

/-- `_flatten_source` (lines 105-120): returns `(source_files, other_nodes)`,
each accumulated left to right. -/
def _flatten_source : SrcList → List String × List SrcItem
  | SrcList.nil => ([], [])
  | SrcList.cons ele rest =>
      let m := _flatten_source_item ele
      let r := _flatten_source rest
      (m.1 ++ r.1, m.2 ++ r.2)
end

/-- The exact integer ceiling `⌈a / b⌉`, the value of Python's
`math.ceil(a / b)` for a nonzero divisor. -/
def pyCeil (a b : Int) : Int := -((-a).fdiv b)

/-- `math.ceil(a / b)` as Python evaluates it: a zero divisor raises
`ZeroDivisionError`, otherwise the ceiling of the exact quotient. -/
def pyCeilDiv (a b : Int) : Except String Int :=
  if b = 0 then Except.error "ZeroDivisionError" else Except.ok (pyCeil a b)

/-- Lines 77-78: `max_sources_per_file = max(1, math.ceil(len(source_files) /
env['UNITY_MIN_FILES']))` and `sources_per_file = min(max_sources_per_file,
env['UNITY_MAX_SOURCES'])`. -/
def sources_per_file_calc (T : Nat) (maxSources minFiles : Int) :
    Except String Int := do
  let c ← pyCeilDiv T minFiles
  Except.ok (min (max 1 c) maxSources)

/-- Python slice-index resolution: a negative index counts from the end, and
both ends are clamped to `[0, len]`. -/
def pySliceIndex (len : Nat) (i : Int) : Nat :=
  if i < 0 then (len + i).toNat else min i.toNat len

/-- Python slicing `xs[b:e]`. -/
def pySlice (xs : List α) (b e : Int) : List α :=
  (xs.drop (pySliceIndex xs.length b)).take
    (pySliceIndex xs.length e - pySliceIndex xs.length b)

/-- The partitioner of lines 77-98, isolated from file naming: the
sources-per-file value, `num_unity_files = math.ceil(len(source_files) /
sources_per_file)` (line 80), and the slice
`source_files[sources_per_file*idx : sources_per_file*(idx+1)]` taken for
each `idx in range(num_unity_files)` (lines 90-97). -/
def unity_slices (xs : List α) (maxSources minFiles : Int) :
    Except String (List (List α)) := do
  let spf ← sources_per_file_calc xs.length maxSources minFiles
  let n ← pyCeilDiv xs.length spf
  Except.ok ((List.range n.toNat).map fun idx : Nat =>
    pySlice xs (spf * (idx : Int)) (spf * ((idx : Int) + 1)))

/-- `os.path.basename` for POSIX paths: the component after the last slash. -/
def basename (p : String) : String :=
  String.mk ((p.data.reverse.takeWhile (fun c => c ≠ '/')).reverse)

/-- Line 91: `f'{cache_dir}/{target_base_name}_{idx}.cpp'`. -/
def unity_filename (cache_dir target_base_name : String) (idx : Nat) : String :=
  cache_dir ++ "/" ++ target_base_name ++ "_" ++ toString idx ++ ".cpp"

/-- The environment options read by the generator (with their SCons
defaults resolved by the caller). -/
structure Env where
  UNITY_DISABLE : Bool
  UNITY_CACHE_DIR : String
  UNITY_MAX_SOURCES : Int
  UNITY_MIN_FILES : Int

/-- Lines 82-85: `if not cache_dir: cache_dir = env['UNITY_CACHE_DIR']`.
`None` and the empty string are both falsy in Python.  (A `Dir` node
argument, which the code converts through `.abspath`, is modelled by the
resulting string.) -/
def resolve_cache_dir (env : Env) (cache_dir : Option String) : String :=
  match cache_dir with
  | none => env.UNITY_CACHE_DIR
  | some c => if c = "" then env.UNITY_CACHE_DIR else c

/-- Shape of a Python value returned by the generator: either the base
builder's result itself, or a Python list of such values. -/
inductive PyRet (R : Type) where
  | base (r : R)
  | list (rs : List (PyRet R))

/-- Observable outcome of one `generator` invocation: every
`env.UnitySource(target = .., source = ..)` call in order (line 95), every
base-builder call `(target, source, forwarded args)` (lines 73 and 102),
and the returned value. -/
structure GenOutcome (R A : Type) where
  unity_calls : List (String × List String)
  builder_calls : List (String × SrcList × A)
  ret : PyRet R

/-- The `generator` closure produced by `_make_generator(base_generator)`
(lines 70-103), parametric in the base builder `base` and in the type `A` of
the forwarded `*args, **kwargs`.  The filesystem side effects
(`os.makedirs`, writing the unity files) are outside this function in the
source as well: line 95 only schedules a `UnitySource` call, recorded here
in `unity_calls`. -/
def generator {R A : Type} (base : String → SrcList → A → R) (env : Env)
    (source : SrcList) (target : String) (cache_dir : Option String)
    (args : A) : Except String (GenOutcome R A) :=
  if env.UNITY_DISABLE then
    Except.ok { unity_calls := []
                builder_calls := [(target, source, args)]
                ret := PyRet.base (base target source args) }
  else do
    let fl := _flatten_source source
    let source_files := fl.1
    let other_nodes := fl.2
    let spf ← sources_per_file_calc source_files.length
      env.UNITY_MAX_SOURCES env.UNITY_MIN_FILES
    let n ← pyCeilDiv source_files.length spf
    let cd := resolve_cache_dir env cache_dir
    let tbn := basename target
    let unity_calls := (List.range n.toNat).map fun idx : Nat =>
      (unity_filename cd tbn idx,
       pySlice source_files (spf * (idx : Int)) (spf * ((idx : Int) + 1)))
    let bsource := SrcList.ofList
      (unity_calls.map (fun c => SrcItem.str c.1) ++ other_nodes)
    Except.ok { unity_calls := unity_calls
                builder_calls := [(target, bsource, args)]
                ret := PyRet.list [PyRet.base (base target bsource args)] }

/-- Line 132: `source_file.abspath.replace("\\", "\\\\")` — every backslash
character is replaced by two (the pattern is a single character, so
`str.replace` is exactly this character map). -/
def escape_backslashes (s : String) : String :=
  String.mk (s.data.flatMap (fun c => if c = '\\' then ['\\', '\\'] else [c]))

/-- Line 133: the f-string `f'#include "{fpath}"\n'` written for one source
file. -/
def include_line (p : String) : String :=
  "#include \"" ++ escape_backslashes p ++ "\"\n"

/-- `_generate_unity_file` (lines 126-133): the full text written to the
target, accumulated write by write over the source paths in order. -/
def _generate_unity_file (source : List String) : String :=
  source.foldl (fun acc p => acc ++ include_line p) ""

/-- A file system as a map from paths to contents; `open(path, 'w')` followed
by writes of `content` replaces whatever was at `path`. -/
def fs_write (fs : String → Option String) (path content : String) :
    String → Option String :=
  fun q => if q = path then some content else fs q

/-- The renderer's effect on the file system: `_generate_unity_file` opens
the destination in `'w'` mode and writes the include directives. -/
def render_unity (fs : String → Option String) (dest : String)
    (source : List String) : String → Option String :=
  fs_write fs dest (_generate_unity_file source)

/-- Splitting a character stream into newline-separated lines (the final
element is the text after the last newline; a terminated stream therefore
ends with an empty last element). -/
def split_lines : List Char → List (List Char)
  | [] => [[]]
  | c :: cs =>
      if c = '\n' then [] :: split_lines cs
      else
        match split_lines cs with
        | [] => [[c]]
        | l :: ls => (c :: l) :: ls

/-- The lines of a string. -/
def lines_of (s : String) : List String := (split_lines s.data).map String.mk

/- ### Arithmetic facts about `pyCeil` -/

theorem pyCeilDiv_eq {a b : Int} (hb : b ≠ 0) :
    pyCeilDiv a b = Except.ok (pyCeil a b) := by
  unfold pyCeilDiv
  rw [if_neg hb]

theorem pyCeil_lower {a b : Int} (hb : 0 < b) : b * (pyCeil a b - 1) < a := by
  have hfe : (-a).fdiv b = (-a) / b := Int.fdiv_eq_ediv _ (Int.le_of_lt hb)
  have h2 := Int.lt_ediv_add_one_mul_self (-a) hb
  unfold pyCeil
  rw [hfe]
  nlinarith [h2]

theorem pyCeil_upper {a b : Int} (hb : 0 < b) : a ≤ b * pyCeil a b := by
  have hfe : (-a).fdiv b = (-a) / b := Int.fdiv_eq_ediv _ (Int.le_of_lt hb)
  have h1 := (Int.le_ediv_iff_mul_le hb).mp (Int.le_refl ((-a) / b))
  unfold pyCeil
  rw [hfe]
  nlinarith [h1]

theorem pyCeil_nonneg {a b : Int} (ha : 0 ≤ a) (hb : 0 < b) :
    0 ≤ pyCeil a b := by
  nlinarith [pyCeil_upper (a := a) hb]

theorem pyCeil_one (a : Int) : pyCeil a 1 = a := by
  unfold pyCeil
  rw [Int.fdiv_one]
  exact Int.neg_neg a

/- ### Slices as chunks -/

theorem bind_ok {α β : Type} (a : α) (f : α → Except String β) :
    (Except.ok a >>= f) = f a := rfl

theorem bind_error {α β : Type} (e : String) (f : α → Except String β) :
    ((Except.error e : Except String α) >>= f) = Except.error e := rfl


theorem pySlice_eq {α : Type} (xs : List α) (s i : Nat) :
    pySlice xs ((s : Int) * (i : Int)) ((s : Int) * ((i : Int) + 1)) =
      (xs.drop (s * i)).take s := by
  unfold pySlice pySliceIndex
  have hb : ((s : Int) * (i : Int)) = ((s * i : Nat) : Int) := by push_cast; ring
  have he : ((s : Int) * ((i : Int) + 1)) = ((s * i + s : Nat) : Int) := by
    push_cast; ring
  rw [hb, he]
  have hbn : ¬(((s * i : Nat) : Int) < 0) := by omega
  have hen : ¬(((s * i + s : Nat) : Int) < 0) := by omega
  rw [if_neg hbn, if_neg hen, Int.toNat_natCast, Int.toNat_natCast]
  rcases Nat.le_total xs.length (s * i) with h | h
  · have h1 : min (s * i) xs.length = xs.length := by omega
    have h2 : min (s * i + s) xs.length = xs.length := by omega
    rw [h1, h2, Nat.sub_self, List.take_zero, List.drop_eq_nil_of_le h,
      List.take_nil]
  · have h1 : min (s * i) xs.length = s * i := by omega
    rw [h1, List.take_eq_take]
    simp only [List.length_drop]
    omega

theorem chunk_length {α : Type} (xs : List α) (s i : Nat) :
    ((xs.drop (s * i)).take s).length = min s (xs.length - s * i) := by
  simp [List.length_take, List.length_drop]

theorem join_chunks {α : Type} (s : Nat) (hs : 1 ≤ s) :
    ∀ (n : Nat) (xs : List α), xs.length ≤ s * n →
      ((List.range n).map fun i => (xs.drop (s * i)).take s).flatten = xs
  | 0, xs, h => by
      have hnil : xs = [] := List.eq_nil_of_length_eq_zero (by omega)
      simp [hnil]
  | n + 1, xs, h => by
      rw [List.range_succ_eq_map, List.map_cons, List.map_map,
        List.flatten_cons]
      have hfun : ((fun i => (xs.drop (s * i)).take s) ∘ Nat.succ) =
          fun i => ((xs.drop s).drop (s * i)).take s := by
        funext i
        simp only [Function.comp_apply, List.drop_drop]
        rw [Nat.mul_succ, Nat.add_comm]
      rw [hfun]
      have h' : xs.length ≤ s * n + s := by
        rw [Nat.mul_succ] at h
        exact h
      have hlen : (xs.drop s).length ≤ s * n := by
        rw [List.length_drop]
        omega
      rw [join_chunks s hs n (xs.drop s) hlen]
      rw [Nat.mul_zero, List.drop_zero, List.take_append_drop]

/-- Everything at once about the partitioner under a valid configuration
(`maxSources ≥ 1`, `minFiles ≥ 1`): the computed per-file count as an
integer, its success, the group list as plain take/drop chunks, and the
bounds tying the group count to the source count. -/
theorem unity_slices_spec {α : Type} (xs : List α) (M K : Int)
    (hM : 1 ≤ M) (hK : 1 ≤ K) :
    ∃ s n : Nat, 1 ≤ s ∧
      (s : Int) = min (max 1 (pyCeil xs.length K)) M ∧
      sources_per_file_calc xs.length M K = Except.ok (s : Int) ∧
      pyCeilDiv (xs.length : Int) (s : Int) = Except.ok (n : Int) ∧
      unity_slices xs M K =
        Except.ok ((List.range n).map fun i => (xs.drop (s * i)).take s) ∧
      xs.length ≤ s * n ∧ (0 < n → s * (n - 1) < xs.length) ∧
      (xs.length = 0 → n = 0) := by
  have hK0 : (0 : Int) < K := by omega
  have hcnn : 0 ≤ pyCeil xs.length K :=
    pyCeil_nonneg (Int.ofNat_nonneg _) hK0
  set spf : Int := min (max 1 (pyCeil xs.length K)) M with hspf
  have hspf1 : (1 : Int) ≤ spf := by omega
  have hsi : (spf.toNat : Int) = spf := by omega
  have hspf0 : (0 : Int) < spf := by omega
  have hnnn : 0 ≤ pyCeil (xs.length : Int) spf :=
    pyCeil_nonneg (Int.ofNat_nonneg _) hspf0
  have hni : ((pyCeil (xs.length : Int) spf).toNat : Int) =
      pyCeil (xs.length : Int) spf := by omega
  have hcalc : sources_per_file_calc xs.length M K = Except.ok spf := by
    unfold sources_per_file_calc
    rw [pyCeilDiv_eq (show K ≠ 0 by omega), bind_ok]
  have hnd : pyCeilDiv (xs.length : Int) spf =
      Except.ok (pyCeil (xs.length : Int) spf) := pyCeilDiv_eq (by omega)
  have hupper := pyCeil_upper (a := (xs.length : Int)) hspf0
  have hlower := pyCeil_lower (a := (xs.length : Int)) hspf0
  refine ⟨spf.toNat, (pyCeil (xs.length : Int) spf).toNat, by omega, hsi,
    ?_, ?_, ?_, ?_, ?_, ?_⟩
  · rw [hsi]; exact hcalc
  · rw [hsi, hni]; exact hnd
  · unfold unity_slices
    rw [hcalc, bind_ok, hnd, bind_ok]
    congr 1
    apply List.map_congr_left
    intro i _
    have hrw : spf = ((spf.toNat : Nat) : Int) := hsi.symm
    rw [hrw]
    exact pySlice_eq xs spf.toNat i
  · have hc : (xs.length : Int) ≤
        ((spf.toNat * (pyCeil (xs.length : Int) spf).toNat : Nat) : Int) := by
      push_cast
      rw [hsi, hni]
      exact hupper
    exact_mod_cast hc
  · intro hn
    have h1 : 1 ≤ (pyCeil (xs.length : Int) spf).toNat := hn
    have hc : ((spf.toNat * ((pyCeil (xs.length : Int) spf).toNat - 1) : Nat) :
        Int) < (xs.length : Int) := by
      push_cast [Nat.cast_sub h1]
      rw [hsi, hni]
      exact hlower
    exact_mod_cast hc
  · intro h0
    have hL : (xs.length : Int) = 0 := by exact_mod_cast h0
    have h1lt : pyCeil (xs.length : Int) spf < 1 := by
      nlinarith [hlower, hspf0, hnnn, hL]
    omega

/- ### Claims about the partitioner -/

/-- C1: for every source sequence and configuration `M ≥ 1`, `K ≥ 1`, the
partitioner succeeds and produces ordered contiguous groups whose
concatenation in group-index order is exactly the original sequence (hence
sizes sum to the total), with every group non-empty (vacuously when the
sequence is empty). -/
theorem partition_covers_exactly {α : Type} (xs : List α) (M K : Int)
    (hM : 1 ≤ M) (hK : 1 ≤ K) :
    ∃ gs, unity_slices xs M K = Except.ok gs ∧
      gs.flatten = xs ∧
      (gs.map List.length).sum = xs.length ∧
      ∀ g ∈ gs, g ≠ [] := by
  obtain ⟨s, n, hs1, _, _, _, hsl, hub, hlb, _⟩ :=
    unity_slices_spec xs M K hM hK
  have hj := join_chunks s hs1 n xs hub
  refine ⟨_, hsl, hj, ?_, ?_⟩
  · rw [← List.length_flatten, hj]
  · intro g hg
    rw [List.mem_map] at hg
    obtain ⟨i, hi, rfl⟩ := hg
    rw [List.mem_range] at hi
    have hlt : s * i < xs.length := by
      have h1 : s * i ≤ s * (n - 1) := Nat.mul_le_mul_left s (by omega)
      have h2 := hlb (by omega)
      omega
    intro hnil
    have hcl := chunk_length xs s i
    rw [hnil] at hcl
    simp only [List.length_nil] at hcl
    omega

/-- Instance of `partition_covers_exactly` at seven sources, `M = 3`,
`K = 2`. -/
theorem partition_covers_exactly_witness :
    unity_slices [0, 1, 2, 3, 4, 5, 6] 3 2 =
      Except.ok [[0, 1, 2], [3, 4, 5], [6]] ∧
    ([[0, 1, 2], [3, 4, 5], [6]] : List (List Nat)).flatten =
      [0, 1, 2, 3, 4, 5, 6] ∧
    (([[0, 1, 2], [3, 4, 5], [6]] : List (List Nat)).map List.length).sum =
      7 := by
  obtain ⟨gs, h1, h2, h3, _⟩ :=
    partition_covers_exactly [0, 1, 2, 3, 4, 5, 6] 3 2 (by omega) (by omega)
  have he : unity_slices [0, 1, 2, 3, 4, 5, 6] 3 2 =
      Except.ok [[0, 1, 2], [3, 4, 5], [6]] := rfl
  rw [he] at h1
  have hgs := Except.ok.inj h1
  subst hgs
  exact ⟨he, h2, h3⟩

/-- C2: with `M ≥ 1`, `K ≥ 1` the effective group size is
`min(M, ceil(T/K))` floored at 1, the group count is
`ceil(T / effective_size)` (zero when `T = 0`), every group except possibly
the last has exactly `effective_size` elements and none has more; moreover
`T = 100, M = 15, K = 2` gives sizes `[15,15,15,15,15,15,10]` and
`T = 10, M = 15, K = 4` gives sizes `[3,3,3,1]`. -/
theorem partition_effective_size_and_count {α : Type} (xs : List α)
    (M K : Int) (hM : 1 ≤ M) (hK : 1 ≤ K) :
    (∃ c spf n gs,
      pyCeilDiv (xs.length : Int) K = Except.ok c ∧
      sources_per_file_calc xs.length M K = Except.ok spf ∧
      spf = max 1 (min M c) ∧
      pyCeilDiv (xs.length : Int) spf = Except.ok n ∧
      unity_slices xs M K = Except.ok gs ∧
      gs.length = n.toNat ∧
      (xs.length = 0 → gs = []) ∧
      (∀ i g, i + 1 < gs.length → gs[i]? = some g → (g.length : Int) = spf) ∧
      ∀ g ∈ gs, (g.length : Int) ≤ spf) ∧
    Except.map (List.map List.length) (unity_slices (List.range 100) 15 2) =
      Except.ok [15, 15, 15, 15, 15, 15, 10] ∧
    Except.map (List.map List.length) (unity_slices (List.range 10) 15 4) =
      Except.ok [3, 3, 3, 1] := by
  refine ⟨?_, rfl, rfl⟩
  obtain ⟨s, n, hs1, hsi, hcalc, hnd, hsl, hub, hlb, hz⟩ :=
    unity_slices_spec xs M K hM hK
  have hK0 : (0 : Int) < K := by omega
  have hcnn : 0 ≤ pyCeil (xs.length : Int) K :=
    pyCeil_nonneg (Int.ofNat_nonneg _) hK0
  refine ⟨pyCeil (xs.length : Int) K, (s : Int), (n : Int), _,
    pyCeilDiv_eq (by omega), hcalc, by omega, hnd, hsl, ?_, ?_, ?_, ?_⟩
  · rw [List.length_map, List.length_range, Int.toNat_natCast]
  · intro h0
    rw [hz h0]
    rfl
  · intro i g hilen hgei
    simp only [List.length_map, List.length_range] at hilen
    rw [List.getElem?_map, List.getElem?_range (by omega : i < n)] at hgei
    simp only [Option.map_some'] at hgei
    obtain rfl := Option.some.inj hgei
    have e1 : s * (i + 1) = s * i + s := Nat.mul_succ s i
    have h2 : s * (i + 1) ≤ s * (n - 1) := Nat.mul_le_mul_left s (by omega)
    have h3 := hlb (by omega)
    have hnat : ((xs.drop (s * i)).take s).length = s := by
      rw [chunk_length]
      omega
    rw [hnat]
  · intro g hg
    rw [List.mem_map] at hg
    obtain ⟨i, _, rfl⟩ := hg
    rw [chunk_length]
    exact_mod_cast Nat.min_le_left s (xs.length - s * i)

/-- C3 counterexample: at ten sources with `M = 15 ≥ 10 = T` and `K = 4`,
the partitioner produces four groups, not one group holding all sources. -/
theorem partition_single_group_counterexample :
    unity_slices (List.range 10) 15 4 =
      Except.ok [[0, 1, 2], [3, 4, 5], [6, 7, 8], [9]] ∧
    unity_slices (List.range 10) 15 4 ≠ Except.ok [List.range 10] := by
  refine ⟨rfl, ?_⟩
  intro h
  rw [show unity_slices (List.range 10) 15 4 =
    Except.ok [[0, 1, 2], [3, 4, 5], [6, 7, 8], [9]] from rfl] at h
  exact absurd (Except.ok.inj h) (by decide)

/-- C3 as amended: with `K = 1` (in addition to `M ≥ T`), a non-empty source
sequence yields exactly one group containing all `T` sources. -/
theorem partition_single_group_when_min_one {α : Type} (xs : List α)
    (hne : xs ≠ []) (M : Int) (hM : (xs.length : Int) ≤ M) :
    unity_slices xs M 1 = Except.ok [xs] := by
  have hlp : 0 < xs.length := List.length_pos.mpr hne
  have hM1 : 1 ≤ M := by omega
  obtain ⟨s, n, hs1, hsi, hcalc, hnd, hsl, hub, hlb, hz⟩ :=
    unity_slices_spec xs M 1 hM1 (by omega)
  rw [pyCeil_one] at hsi
  have hsT : s = xs.length := by omega
  subst hsT
  have hn0 : 0 < n := by
    rcases Nat.eq_zero_or_pos n with h | h
    · rw [h, Nat.mul_zero] at hub
      omega
    · exact h
  have hn1 : n = 1 := by
    have h2 := hlb hn0
    by_contra hne1
    have h3 : xs.length * 1 ≤ xs.length * (n - 1) :=
      Nat.mul_le_mul_left xs.length (by omega)
    rw [Nat.mul_one] at h3
    omega
  subst hn1
  rw [hsl]
  have : List.range 1 = [0] := rfl
  rw [this]
  simp [List.take_length]

/-- Instance of `partition_single_group_when_min_one` at three sources and
`M = 5`. -/
theorem partition_single_group_witness :
    unity_slices [10, 20, 30] 5 1 = Except.ok [[10, 20, 30]] :=
  partition_single_group_when_min_one [10, 20, 30] (by decide) 5 (by decide)

/-- C4 counterexample: the effective-size computation of lines 77-78 is not
total on all integer configurations and its result can be below 1: with
`K = 0` Python raises `ZeroDivisionError` at line 77, and with `M = 0`
(`K = 3`) the computed value is `0`. -/
theorem effective_size_config_counterexample :
    sources_per_file_calc 5 15 0 = Except.error "ZeroDivisionError" ∧
    sources_per_file_calc 5 0 3 = Except.ok 0 := ⟨rfl, rfl⟩

/-- C4 as amended: for every `T ≥ 0` and all integers `M`, `K` with `K ≠ 0`,
the effective-size computation raises no error, and its result is at least 1
whenever `M ≥ 1`. -/
theorem effective_size_total_when_divisor_nonzero (T : Nat) (M K : Int)
    (hK : K ≠ 0) :
    ∃ r, sources_per_file_calc T M K = Except.ok r ∧ (1 ≤ M → 1 ≤ r) := by
  refine ⟨min (max 1 (pyCeil (T : Int) K)) M, ?_, fun hM => by omega⟩
  unfold sources_per_file_calc
  rw [pyCeilDiv_eq hK, bind_ok]

/-- Instance of `effective_size_total_when_divisor_nonzero` at `T = 5`,
`M = 15`, `K = 4`. -/
theorem effective_size_total_witness :
    sources_per_file_calc 5 15 4 = Except.ok 2 ∧ (1 : Int) ≤ 2 := by
  obtain ⟨r, h1, h2⟩ := effective_size_total_when_divisor_nonzero 5 15 4
    (by omega)
  have he : sources_per_file_calc 5 15 4 = Except.ok 2 := rfl
  exact ⟨he, by omega⟩

/- ### Claims about the aggregate renderer -/

/-- C9: the renderer is deterministic in its inputs and unconditionally
overwrites the destination: rendering twice equals rendering once, the
destination afterwards holds exactly the rendered text, and the resulting
contents do not depend on what the file system held before. -/
theorem renderer_idempotent_overwrite (fs : String → Option String)
    (dest : String) (src : List String) :
    render_unity (render_unity fs dest src) dest src =
      render_unity fs dest src ∧
    render_unity fs dest src dest = some (_generate_unity_file src) ∧
    ∀ fs2 : String → Option String,
      render_unity fs dest src dest = render_unity fs2 dest src dest := by
  refine ⟨funext fun q => ?_, ?_, fun fs2 => ?_⟩
  · unfold render_unity fs_write
    by_cases h : q = dest <;> simp [h]
  · unfold render_unity fs_write
    simp
  · unfold render_unity fs_write
    simp

theorem split_lines_append (l r : List Char) (h : '\n' ∉ l) :
    split_lines (l ++ '\n' :: r) = l :: split_lines r := by
  induction l with
  | nil => simp [split_lines]
  | cons c cs ih =>
      have hc : ¬(c = '\n') := by
        intro hh
        exact h (by simp [hh])
      have hcs : '\n' ∉ cs := by
        intro hh
        exact h (List.mem_cons_of_mem _ hh)
      rw [List.cons_append]
      simp only [split_lines]
      rw [if_neg hc, ih hcs]

theorem escape_no_newline {p : String} (h : '\n' ∉ p.data) :
    '\n' ∉ (escape_backslashes p).data := by
  intro hmem
  have hmem2 : '\n' ∈ p.data.flatMap
      (fun c => if c = '\\' then ['\\', '\\'] else [c]) := hmem
  rw [List.mem_flatMap] at hmem2
  obtain ⟨a, ha, hin⟩ := hmem2
  by_cases hb : a = '\\'
  · rw [if_pos hb] at hin
    exact absurd hin (by decide)
  · rw [if_neg hb, List.mem_singleton] at hin
    rw [hin] at h
    exact h ha

theorem generate_unity_file_data (paths : List String) :
    (_generate_unity_file paths).data =
      (paths.map fun p => (include_line p).data).flatten := by
  suffices h : ∀ acc : String,
      (paths.foldl (fun acc p => acc ++ include_line p) acc).data =
        acc.data ++ (paths.map fun p => (include_line p).data).flatten by
    exact h ""
  induction paths with
  | nil =>
      intro acc
      simp
  | cons p ps ih =>
      intro acc
      simp [List.foldl_cons, ih, String.data_append, List.append_assoc]

theorem join_data (l : List String) :
    (String.join l).data = (l.map String.data).flatten := by
  suffices h : ∀ acc : String,
      (l.foldl (fun r s => r ++ s) acc).data =
        acc.data ++ (l.map String.data).flatten by
    exact h ""
  induction l with
  | nil =>
      intro acc
      simp
  | cons s t ih =>
      intro acc
      simp [List.foldl_cons, ih, String.data_append, List.append_assoc]

theorem split_lines_flatten (ls : List (List Char))
    (hnl : ∀ l ∈ ls, '\n' ∉ l) :
    split_lines ((ls.map fun l => l ++ ['\n']).flatten) = ls ++ [[]] := by
  induction ls with
  | nil => simp [split_lines]
  | cons l t ih =>
      simp only [List.map_cons, List.flatten_cons]
      rw [show (l ++ ['\n']) ++ ((t.map fun l => l ++ ['\n'])).flatten =
        l ++ ('\n' :: ((t.map fun l => l ++ ['\n'])).flatten) by simp]
      rw [split_lines_append l _ (hnl l (by simp))]
      rw [ih (fun x hx => hnl x (by simp [hx]))]
      rfl

theorem escape_count_backslash (l : List Char) :
    (l.flatMap fun c => if c = '\\' then ['\\', '\\'] else [c]).count '\\' =
      2 * l.count '\\' := by
  induction l with
  | nil => rfl
  | cons a t ih =>
      rw [List.flatMap_cons, List.count_append, ih]
      by_cases hb : a = '\\'
      · subst hb
        simp [List.count_cons]
        omega
      · rw [if_neg hb]
        simp [List.count_cons, hb]

theorem escape_count_other (l : List Char) (c : Char) (hc : c ≠ '\\') :
    (l.flatMap fun x => if x = '\\' then ['\\', '\\'] else [x]).count c =
      l.count c := by
  induction l with
  | nil => rfl
  | cons a t ih =>
      rw [List.flatMap_cons, List.count_append, ih]
      by_cases hb : a = '\\'
      · subst hb
        simp [List.count_cons, hc]
      · rw [if_neg hb]
        simp only [List.count_cons, List.count_nil, List.count_singleton]
        generalize (if (a == c) = true then 1 else 0) = k
        omega

/-- C5: the renderer writes exactly one `#include "<path>"` line per input
path, in input order, newline-terminated, with every backslash in the path
doubled, no header or footer and no deduplication: the full text is the
concatenation of the per-path lines, and (for paths free of newline
characters) its line decomposition is exactly one include directive per
path followed by the empty tail after the final newline.  Backslash
doubling is exact: backslash counts double, all other character counts are
preserved. -/
theorem renderer_line_format (paths : List String)
    (h : ∀ p ∈ paths, '\n' ∉ p.data) :
    _generate_unity_file paths = String.join (paths.map include_line) ∧
    lines_of (_generate_unity_file paths) =
      (paths.map fun p => "#include \"" ++ escape_backslashes p ++ "\"") ++
        [""] ∧
    (∀ p : String, (escape_backslashes p).data.count '\\' =
      2 * p.data.count '\\') ∧
    ∀ (p : String) (c : Char), c ≠ '\\' →
      (escape_backslashes p).data.count c = p.data.count c := by
  have hdata : (_generate_unity_file paths).data =
      (paths.map fun p => (include_line p).data).flatten :=
    generate_unity_file_data paths
  refine ⟨?_, ?_, ?_, ?_⟩
  · have hd2 : (_generate_unity_file paths).data =
        (String.join (paths.map include_line)).data := by
      rw [hdata, join_data, List.map_map]
      rfl
    exact congrArg String.mk hd2
  · unfold lines_of
    rw [hdata]
    have hform : (paths.map fun p => (include_line p).data) =
        ((paths.map fun p =>
          ("#include \"" ++ escape_backslashes p ++ "\"").data).map
            fun l => l ++ ['\n']) := by
      rw [List.map_map]
      apply List.map_congr_left
      intro p _
      show (include_line p).data = _
      unfold include_line
      simp [String.data_append]
    rw [hform]
    rw [split_lines_flatten _ ?hnl]
    case hnl =>
      intro l hl
      rw [List.mem_map] at hl
      obtain ⟨p, hp, rfl⟩ := hl
      intro hmem
      rw [String.data_append, String.data_append] at hmem
      rcases List.mem_append.mp hmem with hmem2 | hmem2
      · rcases List.mem_append.mp hmem2 with hmem3 | hmem3
        · exact absurd hmem3 (by decide)
        · exact escape_no_newline (h p hp) hmem3
      · exact absurd hmem2 (by decide)
    rw [List.map_append, List.map_map]
    rfl
  · intro p
    exact escape_count_backslash p.data
  · intro p c hc
    exact escape_count_other p.data c hc

/-- Instance of `renderer_line_format` on three paths (one repeated, one
containing a backslash). -/
theorem renderer_line_format_witness :
    lines_of (_generate_unity_file ["x.cpp", "a\\b.cpp", "x.cpp"]) =
      (["x.cpp", "a\\b.cpp", "x.cpp"].map fun p =>
        "#include \"" ++ escape_backslashes p ++ "\"") ++ [""] :=
  (renderer_line_format ["x.cpp", "a\\b.cpp", "x.cpp"] (by decide)).2.1

/- ### Claims about flattening and the composition layer -/

theorem flatten_append : ∀ xs ys : SrcList,
    _flatten_source (xs.append ys) =
      ((_flatten_source xs).1 ++ (_flatten_source ys).1,
       (_flatten_source xs).2 ++ (_flatten_source ys).2)
  | SrcList.nil, ys => by simp [SrcList.append, _flatten_source]
  | SrcList.cons e rest, ys => by
      simp [SrcList.append, _flatten_source, flatten_append rest ys]

/-- C6: flattening walks nested lists depth-first preserving left-to-right
order (it distributes over concatenation), classifies each `File` node — as
its absolute path — and each string leaf as a compilable source and every
other leaf as a passthrough node, recurses into nested lists, and on the
nested example `[[a,b],c,[d,[e]]]` with all leaves compilable produces the
ordered source sequence `[a,b,c,d,e]` with no passthroughs. -/
theorem flatten_source_classification :
    (∀ xs ys : SrcList,
      _flatten_source (xs.append ys) =
        ((_flatten_source xs).1 ++ (_flatten_source ys).1,
         (_flatten_source xs).2 ++ (_flatten_source ys).2)) ∧
    (∀ p rest, _flatten_source (SrcList.cons (SrcItem.file p) rest) =
      (p :: (_flatten_source rest).1, (_flatten_source rest).2)) ∧
    (∀ p rest, _flatten_source (SrcList.cons (SrcItem.str p) rest) =
      (p :: (_flatten_source rest).1, (_flatten_source rest).2)) ∧
    (∀ t rest, _flatten_source (SrcList.cons (SrcItem.node t) rest) =
      ((_flatten_source rest).1,
       SrcItem.node t :: (_flatten_source rest).2)) ∧
    (∀ l rest, _flatten_source (SrcList.cons (SrcItem.list l) rest) =
      ((_flatten_source l).1 ++ (_flatten_source rest).1,
       (_flatten_source l).2 ++ (_flatten_source rest).2)) ∧
    _flatten_source (SrcList.ofList
      [SrcItem.list (SrcList.ofList [SrcItem.file "a", SrcItem.file "b"]),
       SrcItem.file "c",
       SrcItem.list (SrcList.ofList [SrcItem.file "d",
         SrcItem.list (SrcList.ofList [SrcItem.file "e"])])]) =
      (["a", "b", "c", "d", "e"], []) := by
  refine ⟨flatten_append, fun p rest => rfl, fun p rest => rfl,
    fun t rest => rfl, fun l rest => rfl, rfl⟩

/-- C7: with `UNITY_DISABLE` true the generator does no flattening, no
partitioning and no aggregate generation — it succeeds unconditionally with
no `UnitySource` calls and hands the base builder the original source list
verbatim, nested structure included, with target and forwarded arguments
unchanged. -/
theorem generator_disabled_bypass {R A : Type}
    (base : String → SrcList → A → R) (env : Env) (source : SrcList)
    (target : String) (cache_dir : Option String) (args : A)
    (hdis : env.UNITY_DISABLE = true) :
    generator base env source target cache_dir args =
      Except.ok { unity_calls := []
                  builder_calls := [(target, source, args)]
                  ret := PyRet.base (base target source args) } := by
  unfold generator
  rw [hdis]
  rfl

/-- Instance of `generator_disabled_bypass` on a nested source list. -/
theorem generator_disabled_bypass_witness :
    generator (fun _ _ _ => (0 : Nat)) (Env.mk true ".unity" 15 1)
        (SrcList.cons (SrcItem.list (SrcList.ofList [SrcItem.str "a.cpp"]))
          SrcList.nil) "t" none () =
      Except.ok { unity_calls := []
                  builder_calls := [("t",
                    SrcList.cons (SrcItem.list
                      (SrcList.ofList [SrcItem.str "a.cpp"])) SrcList.nil,
                    ())]
                  ret := PyRet.base 0 } :=
  generator_disabled_bypass _ _ _ _ _ _ rfl

/-- C8: with `UNITY_DISABLE` false (and the arithmetic of lines 77-80
succeeding, which `M ≥ 1`, `K ≥ 1` guarantee), the generator invokes the
base builder exactly once, with the generated aggregate file paths in
ascending group-index order followed by all passthrough nodes in their
original relative order as `source`, and with `target` and the forwarded
arguments passed through verbatim. -/
theorem generator_enabled_builder_call {R A : Type}
    (base : String → SrcList → A → R) (env : Env) (source : SrcList)
    (target : String) (cache_dir : Option String) (args : A) (spf n : Int)
    (hdis : env.UNITY_DISABLE = false)
    (hspf : sources_per_file_calc (_flatten_source source).1.length
      env.UNITY_MAX_SOURCES env.UNITY_MIN_FILES = Except.ok spf)
    (hn : pyCeilDiv ((_flatten_source source).1.length : Int) spf =
      Except.ok n) :
    ∀ uc : List (String × List String),
      uc = (List.range n.toNat).map (fun idx : Nat =>
        (unity_filename (resolve_cache_dir env cache_dir) (basename target)
           idx,
         pySlice (_flatten_source source).1 (spf * (idx : Int))
           (spf * ((idx : Int) + 1)))) →
      (generator base env source target cache_dir args =
        Except.ok { unity_calls := uc
                    builder_calls := [(target,
                      SrcList.ofList (uc.map (fun c => SrcItem.str c.1) ++
                        (_flatten_source source).2), args)]
                    ret := PyRet.list [PyRet.base (base target
                      (SrcList.ofList (uc.map (fun c => SrcItem.str c.1) ++
                        (_flatten_source source).2)) args)] }) ∧
      uc.map Prod.fst = (List.range n.toNat).map
        (unity_filename (resolve_cache_dir env cache_dir)
          (basename target)) := by
  intro uc huc
  subst huc
  constructor
  · simp only [generator, hdis, Bool.false_eq_true, if_false]
    rw [hspf, bind_ok, hn, bind_ok]
  · rw [List.map_map]
    rfl

/-- A small concrete source list: two compilable strings and one
passthrough node. -/
def sample_source : SrcList :=
  SrcList.cons (SrcItem.str "a.cpp") (SrcList.cons (SrcItem.str "b.cpp")
    (SrcList.cons (SrcItem.node 7) SrcList.nil))

/-- Instance of `generator_enabled_builder_call`: two sources, one
passthrough, `M = 15`, `K = 1` — one aggregate file, then the passthrough. -/
theorem generator_enabled_builder_call_witness :
    generator (fun _ _ _ => (0 : Nat)) (Env.mk false ".unity" 15 1)
        sample_source "prog" none () =
      Except.ok { unity_calls := [(".unity/prog_0.cpp", ["a.cpp", "b.cpp"])]
                  builder_calls := [("prog",
                    SrcList.cons (SrcItem.str ".unity/prog_0.cpp")
                      (SrcList.cons (SrcItem.node 7) SrcList.nil), ())]
                  ret := PyRet.list [PyRet.base 0] } :=
  (generator_enabled_builder_call (fun _ _ _ => (0 : Nat))
    (Env.mk false ".unity" 15 1) sample_source "prog" none () 2 1 rfl rfl rfl
    [(".unity/prog_0.cpp", ["a.cpp", "b.cpp"])] rfl).1

/-- C10: the generator's return value has a different shape in the two
modes: disabled returns the base builder's result directly, enabled wraps
it in a one-element list, so for identical builder results the two modes
return unequal values. -/
theorem generator_return_shape {R A : Type} (r0 : R) (env : Env)
    (source : SrcList) (target : String) (cache_dir : Option String)
    (args : A) (o o2 : GenOutcome R A)
    (hdis : env.UNITY_DISABLE = true)
    (h1 : generator (fun _ _ _ => r0) env source target cache_dir args =
      Except.ok o)
    (h2 : generator (fun _ _ _ => r0) { env with UNITY_DISABLE := false }
      source target cache_dir args = Except.ok o2) :
    o.ret = PyRet.base r0 ∧ o2.ret = PyRet.list [PyRet.base r0] ∧
      o.ret ≠ o2.ret := by
  rw [generator_disabled_bypass _ _ _ _ _ _ hdis] at h1
  obtain rfl := Except.ok.inj h1
  simp only [generator] at h2
  cases hc : sources_per_file_calc (_flatten_source source).1.length
      env.UNITY_MAX_SOURCES env.UNITY_MIN_FILES with
  | error e =>
      rw [hc, bind_error] at h2
      exact Except.noConfusion h2
  | ok spf =>
      rw [hc, bind_ok] at h2
      cases hn : pyCeilDiv ((_flatten_source source).1.length : Int) spf with
      | error e =>
          rw [hn, bind_error] at h2
          exact Except.noConfusion h2
      | ok n =>
          rw [hn, bind_ok] at h2
          obtain rfl := Except.ok.inj h2
          refine ⟨rfl, rfl, ?_⟩
          intro hcontra
          exact PyRet.noConfusion hcontra

/-- Instance of `generator_return_shape` on an empty source list. -/
theorem generator_return_shape_witness :
    (GenOutcome.mk [] [("t", SrcList.nil, ())] (PyRet.base (0 : Nat))).ret =
      PyRet.base 0 ∧
    (GenOutcome.mk ([] : List (String × List String))
        [("t", SrcList.nil, ())] (PyRet.list [PyRet.base (0 : Nat)])).ret =
      PyRet.list [PyRet.base 0] ∧
    (GenOutcome.mk [] [("t", SrcList.nil, ())] (PyRet.base (0 : Nat))).ret ≠
      (GenOutcome.mk ([] : List (String × List String))
        [("t", SrcList.nil, ())] (PyRet.list [PyRet.base (0 : Nat)])).ret :=
  generator_return_shape 0 (Env.mk true ".unity" 15 1) SrcList.nil "t" none ()
    (GenOutcome.mk [] [("t", SrcList.nil, ())] (PyRet.base 0))
    (GenOutcome.mk [] [("t", SrcList.nil, ())] (PyRet.list [PyRet.base 0]))
    rfl rfl rfl

/-- Instance of `partition_effective_size_and_count`: the `T = 10, M = 15,
K = 4` example sizes. -/
theorem partition_effective_size_and_count_witness :
    Except.map (List.map List.length) (unity_slices (List.range 10) 15 4) =
      Except.ok [3, 3, 3, 1] :=
  (partition_effective_size_and_count ([] : List Nat) 15 4 (by omega)
    (by omega)).2.2
